import Mathlib

/-!
Shallow embedding of `src/components/editor.js` (the slate editor orchestrator):
plugin resolution, schema composition, event dispatch, and the change pipeline
(`onBeforeChange` / `onChange` / `onEvent` / `componentWillReceiveProps`).

Modelling conventions:
* JavaScript reference identity is modelled by giving every Document, Selection
  and State (snapshot) value an explicit `id` token; two content-equal values
  built at different allocation sites carry different `id`s, so Lean equality
  of the modelled values coincides with JS `==` on object references.
* A hook or handler may throw: it returns `Except Err (Option Snap)`, where
  `Option.none` models the JS `null`/`undefined` "no result".
* The orchestrator's observable effects (invoking a plugin hook, firing the
  external `onChange`/`onDocumentChange`/`onSelectionChange` callbacks,
  writing the `tmp` cache via `cacheState`, committing an authoritative state
  via `setState`) are recorded in an event trace.  Computations live in
  `M α := List Ev → Except Err α × List Ev`: a thrown error aborts the rest of
  the computation but keeps the trace emitted so far, exactly mirroring a JS
  exception unwinding through the synchronous call.
* The React `this` handle passed to hooks is dropped: it is only used for
  re-entrancy, which none of the verified properties exercise.
-/

/-- Error payload thrown by a plugin hook. -/
abbrev Err := Nat

/-- A document, with an explicit reference-identity token and opaque content. -/
structure Doc where
  id : Nat
  content : Nat
  deriving DecidableEq, Repr

/-- A selection, with an explicit reference-identity token and opaque content. -/
structure Sel where
  id : Nat
  content : Nat
  deriving DecidableEq, Repr

/-- A State snapshot: an immutable value holding a document and a selection,
with its own reference-identity token. -/
structure Snap where
  id : Nat
  document : Doc
  selection : Sel
  deriving DecidableEq, Repr

/-- A schema validation rule (opaque). -/
abbrev Rule := Nat

/-- Modelled from the spec: `src/models/schema` is not part of the excerpt.
A schema fragment carries a reference-identity token (for the
`props.schema != this.props.schema` comparison) and expands to its canonical
ordered rule list. -/
structure SchemaFragment where
  id : Nat
  rules : List Rule
  deriving DecidableEq, Repr

/-- A composed schema: an ordered list of rules. -/
structure Schema where
  rules : List Rule
  deriving DecidableEq, Repr

/-- Modelled from the spec: `Schema.create` expands a fragment to a schema
holding exactly the fragment's canonical ordered rule list. -/
def Schema.create (f : SchemaFragment) : Schema :=
  { rules := f.rules }

/-- The recognized UI event names (the `EVENT_HANDLERS` array in the source). -/
inductive EventName
  | onBeforeInput
  | onBlur
  | onCopy
  | onCut
  | onDrop
  | onKeyDown
  | onPaste
  | onSelectEvent
  deriving DecidableEq, Repr

/-- A before-change / after-change hook: `(state, editor) -> State | null`,
possibly throwing. -/
abbrev Hook := Snap → Except Err (Option Snap)

/-- An event handler: `(...args, state, editor) -> State | falsy`, possibly
throwing.  Native event arguments are modelled opaquely as a list of numbers. -/
abbrev Handler := List Nat → Snap → Except Err (Option Snap)

/-- A plugin: optional schema fragment, optional before/after-change hooks,
and one optional handler per recognized event name. -/
structure Plugin where
  schema : Option SchemaFragment := none
  onBeforeChange : Option Hook := none
  onChange : Option Hook := none
  handlers : EventName → Option Handler := fun _ => none

/-- The editor's props.  `pluginsId` is the reference identity of the
`props.plugins` array and `schemaId` that of the `props.schema` object;
`onChangeCb` marks whether the host supplied the primary change callback
(`props.onChange`), which `resolvePlugins` must exclude from the override
plugin. -/
structure Props where
  pluginsId : Nat
  plugins : List Plugin
  schemaId : Nat
  schema : Option SchemaFragment
  state : Snap
  onBeforeChange : Option Hook := none
  onChangeCb : Option Hook := none
  handlers : EventName → Option Handler := fun _ => none

/-- The mutable orchestrator state: `this.state.plugins`, `this.state.schema`,
`this.state.state` (the authoritative snapshot) and the `this.tmp` cache. -/
structure EditorState where
  plugins : List Plugin
  schema : Schema
  state : Snap
  tmpDocument : Doc
  tmpSelection : Sel

/-- Observable effects of the orchestrator. -/
inductive Ev
  | beforeHook (i : Nat)
  | changeHook (i : Nat)
  | handlerRun (name : EventName) (i : Nat)
  | cbChange (s : Snap)
  | cbDocumentChange (d : Doc) (s : Snap)
  | cbSelectionChange (sel : Sel) (s : Snap)
  | cacheWrite (d : Doc) (sel : Sel)
  | setAuthState (s : Snap)
  deriving DecidableEq, Repr

/-- The effect monad: trace-accumulating computations that may throw.  A
thrown error keeps the trace emitted before the throw. -/
def M (α : Type) : Type := List Ev → Except Err α × List Ev

/-- Run a computation on an initial trace. -/
def M.run (x : M α) (tr : List Ev) : Except Err α × List Ev := x tr

def M.pure (a : α) : M α := fun tr => (.ok a, tr)

def M.bind (x : M α) (f : α → M β) : M β := fun tr =>
  match x tr with
  | (.ok a, tr') => f a tr'
  | (.error e, tr') => (.error e, tr')

instance : Monad M where
  pure := M.pure
  bind := M.bind

/-- Record an observable effect. -/
def M.emit (e : Ev) : M Unit := fun tr => (.ok (), tr ++ [e])

/-- Lift a possibly-throwing hook result into the effect monad. -/
def M.liftE : Except Err α → M α
  | .ok a => fun tr => (.ok a, tr)
  | .error e => fun tr => (.error e, tr)

namespace Editor

/-- `resolvePlugins` (editor.js 299-308): destructures
`{ onChange, plugins, ...editorPlugin } = props`, so the override plugin keeps
every handler-shaped field of the props except the primary change callback and
the plugin list. -/
def editorPluginOf (props : Props) : Plugin :=
  { schema := props.schema
    onBeforeChange := props.onBeforeChange
    onChange := none
    handlers := props.handlers }

/-- `resolvePlugins` (editor.js 299-308): `[editorPlugin, ...plugins, corePlugin]`.
The core plugin comes from an opaque factory fed the full props; it is a
parameter of the model. -/
def resolvePlugins (core : Props → Plugin) (props : Props) : List Plugin :=
  editorPluginOf props :: (props.plugins ++ [core props])

/-- `resolveSchema` (editor.js 317-328): fold over the plugins, skipping those
with no schema, concatenating each `Schema.create(plugin.schema).rules` onto
the accumulator, then build the final schema from the accumulated rules. -/
def resolveSchema (plugins : List Plugin) : Schema :=
  let rules := plugins.foldl
    (fun rules p =>
      match p.schema with
      | none => rules
      | some f => rules ++ (Schema.create f).rules)
    []
  { rules := rules }

/-- The loop body of `onBeforeChange` (editor.js 198-203): each plugin's
`onBeforeChange` hook may replace the running state; a `null` result leaves it
unchanged.  `i` is the plugin's position, used only for the trace. -/
def runBeforeChain (plugins : List Plugin) (i : Nat) (s : Snap) : M Snap :=
  match plugins with
  | [] => Pure.pure s
  | p :: rest =>
    match p.onBeforeChange with
    | none => runBeforeChain rest (i + 1) s
    | some hook => do
      M.emit (.beforeHook i)
      let newState ← M.liftE (hook s)
      match newState with
      | none => runBeforeChain rest (i + 1) s
      | some ns => runBeforeChain rest (i + 1) ns

/-- `onBeforeChange` (editor.js 195-206): identity-equal states short-circuit
before any hook runs. -/
def onBeforeChange (st : EditorState) (s : Snap) : M Snap :=
  if s = st.state then Pure.pure s
  else runBeforeChain st.plugins 0 s

/-- The loop body of `onChange` (editor.js 217-222), same shape as the
before-change chain but over the `onChange` hooks. -/
def runChangeChain (plugins : List Plugin) (i : Nat) (s : Snap) : M Snap :=
  match plugins with
  | [] => Pure.pure s
  | p :: rest =>
    match p.onChange with
    | none => runChangeChain rest (i + 1) s
    | some hook => do
      M.emit (.changeHook i)
      let newState ← M.liftE (hook s)
      match newState with
      | none => runChangeChain rest (i + 1) s
      | some ns => runChangeChain rest (i + 1) ns

/-- `cacheState` (editor.js 137-140): write the state's document and selection
into the `tmp` cache. -/
def cacheState (st : EditorState) (s : Snap) : M EditorState := do
  M.emit (.cacheWrite s.document s.selection)
  Pure.pure { st with tmpDocument := s.document, tmpSelection := s.selection }

/-- `onChange` (editor.js 214-235): no-op on an identity-equal state;
otherwise run the after-change chain, fire `props.onChange` with the final
state, fire `onDocumentChange` / `onSelectionChange` when the final state's
document / selection identity differs from the cached one, then refresh the
cache.  Note that `onChange` does *not* assign `this.state.state`. -/
def onChange (st : EditorState) (s : Snap) : M EditorState :=
  if s = st.state then Pure.pure st
  else do
    let s ← runChangeChain st.plugins 0 s
    M.emit (.cbChange s)
    if s.document = st.tmpDocument then Pure.pure () else M.emit (.cbDocumentChange s.document s)
    if s.selection = st.tmpSelection then Pure.pure () else M.emit (.cbSelectionChange s.selection s)
    cacheState st s

/-- The loop of `onEvent` (editor.js 246-252): skip plugins without a handler
for `name`; invoke the handler with the *current authoritative* state; a falsy
result continues the walk; a state result is committed through `onChange` and
the loop breaks. -/
def runEventLoop (st : EditorState) (name : EventName) (args : List Nat) :
    List Plugin → Nat → M EditorState
  | [], _ => Pure.pure st
  | p :: rest, i =>
    match p.handlers name with
    | none => runEventLoop st name args rest (i + 1)
    | some h => do
      M.emit (.handlerRun name i)
      let newState ← M.liftE (h args st.state)
      match newState with
      | none => runEventLoop st name args rest (i + 1)
      | some ns => onChange st ns

/-- `onEvent` (editor.js 245-253). -/
def onEvent (st : EditorState) (name : EventName) (args : List Nat) : M EditorState :=
  runEventLoop st name args st.plugins 0

/-- The state-acceptance path shared by the constructor (editor.js 95-97) and
`componentWillReceiveProps` (editor.js 125-127):
`state = onBeforeChange(props.state); cacheState(state); setState({ state })`. -/
def acceptExternalState (st : EditorState) (s : Snap) : M EditorState := do
  let s ← onBeforeChange st s
  let st ← cacheState st s
  M.emit (.setAuthState s)
  Pure.pure { st with state := s }

/-- `componentWillReceiveProps` (editor.js 113-128): rebuild plugins and schema
when the plugin-list reference changed; otherwise rebuild only the schema (from
the *current* `this.state.plugins`) when the schema reference changed; then run
the state-acceptance path on `props.state`. -/
def componentWillReceiveProps (core : Props → Plugin) (oldProps : Props)
    (st : EditorState) (props : Props) : M EditorState :=
  let st :=
    if props.pluginsId ≠ oldProps.pluginsId then
      let plugins := resolvePlugins core props
      let schema := resolveSchema plugins
      { st with plugins := plugins, schema := schema }
    else if props.schemaId ≠ oldProps.schemaId then
      { st with schema := resolveSchema st.plugins }
    else st
  acceptExternalState st props.state

end Editor


/-! ### Spec-side definitions and helpers -/

/-- Spec-side definition (the refinement target for event dispatch), following
the spec's words: "the result of the first plugin in L exposing E that returns
a snapshot; if none do, result is NoResult". -/
def specFirstHandlerResult (name : EventName) (args : List Nat) (s : Snap) :
    List Plugin → Except Err (Option Snap)
  | [] => .ok none
  | p :: rest =>
    match p.handlers name with
    | none => specFirstHandlerResult name args s rest
    | some h =>
      match h args s with
      | .error e => .error e
      | .ok none => specFirstHandlerResult name args s rest
      | .ok (some ns) => .ok (some ns)

/-- The expanded rule contribution of one plugin (zero rules when the plugin
declares no schema fragment). -/
def pluginExpandedRules (p : Plugin) : List Rule :=
  match p.schema with
  | none => []
  | some f => (Schema.create f).rules

/-- A computation only ever appends to the trace it is started on. -/
def TraceShift (x : M α) : Prop :=
  ∀ tr, x.run tr = ((x.run []).1, tr ++ (x.run []).2)

/-- Extract the editor state of a successful run, with a fallback. -/
def getOk (r : Except Err EditorState) (dflt : EditorState) : EditorState :=
  match r with
  | .ok st => st
  | .error _ => dflt

/-- The plugin positions of the handler invocations recorded in a trace. -/
def handlerIdxs (tr : List Ev) : List Nat :=
  tr.filterMap fun e =>
    match e with
    | .handlerRun _ i => some i
    | _ => none

/-- How many handler invocations a trace records. -/
def handlerRunCount (tr : List Ev) : Nat := (handlerIdxs tr).length

/-- How many commits (external change-callback firings) a trace records. -/
def commitCount (tr : List Ev) : Nat :=
  (tr.filter fun e =>
    match e with
    | .cbChange _ => true
    | _ => false).length

/-! ### Concrete sample inputs used by witnesses and counterexamples -/

def exD0 : Doc := ⟨0, 100⟩

/-- A document content-equal to `exD0` but a distinct instance. -/
def exD1 : Doc := ⟨1, 100⟩

def exD2 : Doc := ⟨2, 102⟩

def exSel0 : Sel := ⟨0, 200⟩

/-- A selection content-equal to `exSel0` but a distinct instance. -/
def exSel1 : Sel := ⟨1, 200⟩

def exS0 : Snap := ⟨0, exD0, exSel0⟩

/-- A snapshot holding fresh document/selection instances that are
content-equal to `exS0`'s. -/
def exS1 : Snap := ⟨1, exD1, exSel1⟩

def exS2 : Snap := ⟨2, exD2, exSel0⟩

/-- A plugin whose key-down handler declines (returns no result). -/
def exPluginPass : Plugin :=
  { handlers := fun n =>
      match n with
      | .onKeyDown => some (fun _ _ => .ok none)
      | _ => none }

/-- A plugin whose key-down handler returns the snapshot `exS2`. -/
def exPluginTake : Plugin :=
  { handlers := fun n =>
      match n with
      | .onKeyDown => some (fun _ _ => .ok (some exS2))
      | _ => none }

/-- A plugin whose before-change and after-change hooks both throw. -/
def exPluginThrow : Plugin :=
  { onBeforeChange := some (fun _ => .error 7)
    onChange := some (fun _ => .error 7) }

/-- An editor with no plugins, authoritative snapshot `exS0`, cache in sync. -/
def exStPlain : EditorState := ⟨[], ⟨[]⟩, exS0, exD0, exSel0⟩

/-- An editor whose two plugins both expose a key-down handler. -/
def exStBase : EditorState := ⟨[exPluginPass, exPluginTake], ⟨[]⟩, exS0, exD0, exSel0⟩

/-- An editor whose single plugin throws from both hooks. -/
def exStThrow : EditorState := ⟨[exPluginThrow], ⟨[]⟩, exS0, exD0, exSel0⟩

/-- An editor state reached from `exStPlain` by committing `exS2`: the cache
now holds `exD2` while the authoritative snapshot is still `exS0` (the commit
path updates the cache but not `this.state.state`, which only changes when the
host feeds the new state back through the props). -/
def exStMid : EditorState := getOk ((Editor.onChange exStPlain exS2).run []).1 exStPlain

def exFragOld : SchemaFragment := ⟨0, [1]⟩

def exFragNew : SchemaFragment := ⟨1, [2]⟩

/-- A core-plugin factory contributing no capabilities. -/
def exCoreFactory : Props → Plugin := fun _ => {}

def exPropsOld : Props :=
  { pluginsId := 0, plugins := [], schemaId := 0, schema := some exFragOld, state := exS0 }

/-- Same plugin-list reference as `exPropsOld`, new schema object. -/
def exPropsNew : Props :=
  { pluginsId := 0, plugins := [], schemaId := 1, schema := some exFragNew, state := exS0 }

/-- The editor state resolved from `exPropsOld`. -/
def exStC6 : EditorState :=
  { plugins := Editor.resolvePlugins exCoreFactory exPropsOld
    schema := Editor.resolveSchema (Editor.resolvePlugins exCoreFactory exPropsOld)
    state := exS0
    tmpDocument := exD0
    tmpSelection := exSel0 }

/-- The editor state after `componentWillReceiveProps` runs on `exStC6` with
`exPropsNew` (schema reference changed, plugin-list reference unchanged). -/
def exStC6After : EditorState :=
  getOk ((Editor.componentWillReceiveProps exCoreFactory exPropsOld exStC6 exPropsNew).run []).1 exStC6


/-- A core-plugin factory contributing a schema fragment. -/
def exCoreWithSchema : Props → Plugin := fun _ => { schema := some ⟨2, [9]⟩ }

/-! ### Basic run equations for the effect monad -/

theorem M.run_pure (a : α) (tr : List Ev) :
    (Pure.pure a : M α).run tr = (.ok a, tr) := rfl

theorem M.run_bind (x : M α) (f : α → M β) (tr : List Ev) :
    (x >>= f).run tr =
      match x.run tr with
      | (.ok a, tr') => (f a).run tr'
      | (.error e, tr') => (.error e, tr') := rfl

theorem M.run_emit (e : Ev) (tr : List Ev) :
    (M.emit e).run tr = (.ok (), tr ++ [e]) := rfl

theorem M.run_liftE_ok (a : α) (tr : List Ev) :
    (M.liftE (.ok a)).run tr = (.ok a, tr) := rfl

theorem M.run_liftE_error (e : Err) (tr : List Ev) :
    (M.liftE (.error e) : M α).run tr = (.error e, tr) := rfl

theorem traceShift_pure (a : α) : TraceShift (Pure.pure a : M α) := by
  intro tr; simp [M.run_pure]

theorem traceShift_emit (e : Ev) : TraceShift (M.emit e) := by
  intro tr; simp [M.run_emit]

theorem traceShift_liftE (x : Except Err α) : TraceShift (M.liftE x) := by
  intro tr; cases x <;> simp [M.run_liftE_ok, M.run_liftE_error]

theorem traceShift_bind {x : M α} {f : α → M β}
    (hx : TraceShift x) (hf : ∀ a, TraceShift (f a)) : TraceShift (x >>= f) := by
  intro tr
  simp only [M.run_bind]
  rw [hx tr, hx []]
  simp only [List.nil_append]
  cases hres : (x.run []).1 with
  | error e => simp
  | ok a =>
    simp only
    rw [hf a (tr ++ (x.run []).2), hf a ((x.run []).2), List.append_assoc]

/-! ### Helper lemmas about the embedded operations -/

/-- The fold body of `resolveSchema` appends the plugin's expanded rules. -/
theorem resolveSchema_step (rules : List Rule) (p : Plugin) :
    (match p.schema with
      | none => rules
      | some f => rules ++ (Schema.create f).rules) = rules ++ pluginExpandedRules p := by
  cases h : p.schema <;> simp [pluginExpandedRules, h]

theorem resolveSchema_foldl (l : List Plugin) (init : List Rule) :
    l.foldl
        (fun rules p =>
          match p.schema with
          | none => rules
          | some f => rules ++ (Schema.create f).rules)
        init
      = init ++ (l.map pluginExpandedRules).flatten := by
  induction l generalizing init with
  | nil => simp
  | cons p rest ih => rw [List.foldl_cons, resolveSchema_step, ih, List.map_cons,
      List.flatten_cons, List.append_assoc]

/-- `cacheState` succeeds, records one cache write and updates the `tmp`
fields. -/
theorem cacheState_run (st : EditorState) (s : Snap) (tr : List Ev) :
    (Editor.cacheState st s).run tr =
      (.ok { st with tmpDocument := s.document, tmpSelection := s.selection },
       tr ++ [.cacheWrite s.document s.selection]) := rfl

/-- The before-change chain only appends hook-invocation records (positions
`≥ i`) to the trace: it performs no cache write, commit, or callback. -/
theorem runBeforeChain_trace (plugins : List Plugin) (i : Nat) (s : Snap) (tr : List Ev) :
    ∃ r Δ, (Editor.runBeforeChain plugins i s).run tr = (r, tr ++ Δ)
      ∧ ∀ e ∈ Δ, ∃ j, i ≤ j ∧ e = .beforeHook j := by
  induction plugins generalizing i s tr with
  | nil => exact ⟨.ok s, [], by simp [Editor.runBeforeChain, M.run_pure], by simp⟩
  | cons p rest ih =>
    cases hp : p.onBeforeChange with
    | none =>
      obtain ⟨r, Δ, hrun, hmem⟩ := ih (i + 1) s tr
      refine ⟨r, Δ, by simp [Editor.runBeforeChain, hp, hrun], ?_⟩
      intro e he
      obtain ⟨j, hj, he'⟩ := hmem e he
      exact ⟨j, by omega, he'⟩
    | some hook =>
      cases hh : hook s with
      | error e =>
        refine ⟨.error e, [.beforeHook i], ?_, by simp⟩
        simp [Editor.runBeforeChain, hp, M.run_bind, M.run_emit, hh, M.run_liftE_error]
      | ok os =>
        have step : ∀ s' : Snap,
            (Editor.runBeforeChain (p :: rest) i s).run tr
              = (Editor.runBeforeChain rest (i + 1) s').run (tr ++ [.beforeHook i]) →
            ∃ r Δ, (Editor.runBeforeChain (p :: rest) i s).run tr = (r, tr ++ Δ)
              ∧ ∀ e ∈ Δ, ∃ j, i ≤ j ∧ e = .beforeHook j := by
          intro s' heq
          obtain ⟨r, Δ, hrun, hmem⟩ := ih (i + 1) s' (tr ++ [.beforeHook i])
          refine ⟨r, .beforeHook i :: Δ, ?_, ?_⟩
          · rw [heq, hrun]; simp
          · intro e he
            rcases List.mem_cons.mp he with h | h
            · exact ⟨i, le_refl i, h⟩
            · obtain ⟨j, hj, he'⟩ := hmem e h
              exact ⟨j, by omega, he'⟩
        cases os with
        | none =>
          exact step s (by simp [Editor.runBeforeChain, hp, M.run_bind, M.run_emit, hh,
            M.run_liftE_ok])
        | some ns =>
          exact step ns (by simp [Editor.runBeforeChain, hp, M.run_bind, M.run_emit, hh,
            M.run_liftE_ok])

/-- The after-change chain only appends hook-invocation records (positions
`≥ i`) to the trace. -/
theorem runChangeChain_trace (plugins : List Plugin) (i : Nat) (s : Snap) (tr : List Ev) :
    ∃ r Δ, (Editor.runChangeChain plugins i s).run tr = (r, tr ++ Δ)
      ∧ ∀ e ∈ Δ, ∃ j, i ≤ j ∧ e = .changeHook j := by
  induction plugins generalizing i s tr with
  | nil => exact ⟨.ok s, [], by simp [Editor.runChangeChain, M.run_pure], by simp⟩
  | cons p rest ih =>
    cases hp : p.onChange with
    | none =>
      obtain ⟨r, Δ, hrun, hmem⟩ := ih (i + 1) s tr
      refine ⟨r, Δ, by simp [Editor.runChangeChain, hp, hrun], ?_⟩
      intro e he
      obtain ⟨j, hj, he'⟩ := hmem e he
      exact ⟨j, by omega, he'⟩
    | some hook =>
      cases hh : hook s with
      | error e =>
        refine ⟨.error e, [.changeHook i], ?_, by simp⟩
        simp [Editor.runChangeChain, hp, M.run_bind, M.run_emit, hh, M.run_liftE_error]
      | ok os =>
        have step : ∀ s' : Snap,
            (Editor.runChangeChain (p :: rest) i s).run tr
              = (Editor.runChangeChain rest (i + 1) s').run (tr ++ [.changeHook i]) →
            ∃ r Δ, (Editor.runChangeChain (p :: rest) i s).run tr = (r, tr ++ Δ)
              ∧ ∀ e ∈ Δ, ∃ j, i ≤ j ∧ e = .changeHook j := by
          intro s' heq
          obtain ⟨r, Δ, hrun, hmem⟩ := ih (i + 1) s' (tr ++ [.changeHook i])
          refine ⟨r, .changeHook i :: Δ, ?_, ?_⟩
          · rw [heq, hrun]; simp
          · intro e he
            rcases List.mem_cons.mp he with h | h
            · exact ⟨i, le_refl i, h⟩
            · obtain ⟨j, hj, he'⟩ := hmem e h
              exact ⟨j, by omega, he'⟩
        cases os with
        | none =>
          exact step s (by simp [Editor.runChangeChain, hp, M.run_bind, M.run_emit, hh,
            M.run_liftE_ok])
        | some ns =>
          exact step ns (by simp [Editor.runChangeChain, hp, M.run_bind, M.run_emit, hh,
            M.run_liftE_ok])

/-- A chain over plugins that declare no after-change hook passes the state
through unchanged and records nothing. -/
theorem runChangeChain_id (plugins : List Plugin) (h : ∀ p ∈ plugins, p.onChange = none) :
    ∀ i s tr, (Editor.runChangeChain plugins i s).run tr = (.ok s, tr) := by
  induction plugins with
  | nil => intro i s tr; simp [Editor.runChangeChain, M.run_pure]
  | cons p rest ih =>
    intro i s tr
    have hp : p.onChange = none := h p (List.mem_cons_self p rest)
    have hrest : ∀ q ∈ rest, q.onChange = none := fun q hq => h q (List.mem_cons_of_mem p hq)
    simp [Editor.runChangeChain, hp, ih hrest]

/-- Full characterization of the state-acceptance path: a failed before-chain
propagates its error with no further effect; a successful one installs the
chain's result as the authoritative snapshot and refreshes the cache. -/
theorem acceptExternalState_run (st : EditorState) (s : Snap) (tr : List Ev) :
    (Editor.acceptExternalState st s).run tr =
      match (Editor.onBeforeChange st s).run tr with
      | (.ok s', tr1) =>
          (.ok { st with state := s', tmpDocument := s'.document, tmpSelection := s'.selection },
           tr1 ++ [.cacheWrite s'.document s'.selection, .setAuthState s'])
      | (.error e, tr1) => (.error e, tr1) := by
  cases hrun : (Editor.onBeforeChange st s).run tr with
  | mk r tr1 =>
    cases r with
    | ok s' =>
      simp [Editor.acceptExternalState, M.run_bind, hrun, cacheState_run, M.run_emit, M.run_pure]
    | error e =>
      simp [Editor.acceptExternalState, M.run_bind, hrun]

/-- Full characterization of `onChange` on a state that is not identity-equal
to the authoritative snapshot: a failed after-chain propagates its error with
no callback and no cache write; a successful one fires the change callback,
fires the document/selection callbacks exactly when the final state's
document/selection instance differs from the cached one, and refreshes the
cache.  The authoritative snapshot `st.state` is never assigned here. -/
theorem onChange_run (st : EditorState) (s : Snap) (tr : List Ev) (h : s ≠ st.state) :
    (Editor.onChange st s).run tr =
      match (Editor.runChangeChain st.plugins 0 s).run tr with
      | (.error e, tr1) => (.error e, tr1)
      | (.ok s', tr1) =>
          (.ok { st with tmpDocument := s'.document, tmpSelection := s'.selection },
           tr1 ++ ([.cbChange s']
             ++ (if s'.document = st.tmpDocument then [] else [.cbDocumentChange s'.document s'])
             ++ (if s'.selection = st.tmpSelection then [] else [.cbSelectionChange s'.selection s'])
             ++ [.cacheWrite s'.document s'.selection])) := by
  cases hrun : (Editor.runChangeChain st.plugins 0 s).run tr with
  | mk r tr1 =>
    cases r with
    | ok s' =>
      by_cases hd : s'.document = st.tmpDocument <;> by_cases hs : s'.selection = st.tmpSelection <;>
        simp [Editor.onChange, h, M.run_bind, hrun, M.run_emit, M.run_pure, cacheState_run,
          hd, hs, List.append_assoc]
    | error e =>
      simp [Editor.onChange, h, M.run_bind, hrun]

/-- `onChange` appends a trace that records no event-handler invocation and at
most one commit (external change-callback firing). -/
theorem onChange_trace (st : EditorState) (s : Snap) (tr : List Ev) :
    ∃ r Δ, (Editor.onChange st s).run tr = (r, tr ++ Δ)
      ∧ handlerIdxs Δ = [] ∧ commitCount Δ ≤ 1 := by
  by_cases h : s = st.state
  · exact ⟨.ok st, [], by simp [Editor.onChange, h, M.run_pure], by simp [handlerIdxs], by
      simp [commitCount]⟩
  · obtain ⟨r, Δ, hrun, hmem⟩ := runChangeChain_trace st.plugins 0 s tr
    have hΔh : handlerIdxs Δ = [] := by
      rw [handlerIdxs, List.filterMap_eq_nil_iff]
      intro e he
      obtain ⟨j, _, he'⟩ := hmem e he
      simp [he']
    have hΔc : commitCount Δ = 0 := by
      rw [commitCount, List.length_eq_zero, List.filter_eq_nil_iff]
      intro e he
      obtain ⟨j, _, he'⟩ := hmem e he
      simp [he']
    rw [onChange_run st s tr h, hrun]
    cases r with
    | error e => exact ⟨.error e, Δ, rfl, hΔh, by omega⟩
    | ok s' =>
      refine ⟨.ok { st with tmpDocument := s'.document, tmpSelection := s'.selection },
        Δ ++ ([.cbChange s']
          ++ (if s'.document = st.tmpDocument then [] else [.cbDocumentChange s'.document s'])
          ++ (if s'.selection = st.tmpSelection then [] else [.cbSelectionChange s'.selection s'])
          ++ [.cacheWrite s'.document s'.selection]), by simp, ?_, ?_⟩
      · by_cases hd : s'.document = st.tmpDocument <;> by_cases hs : s'.selection = st.tmpSelection <;>
          simp [handlerIdxs, List.filterMap_append, hd, hs] <;>
          simpa [handlerIdxs] using hΔh
      · have happ : ∀ a b : List Ev, commitCount (a ++ b) = commitCount a + commitCount b := by
          intro a b
          simp [commitCount, List.filter_append]
        by_cases hd : s'.document = st.tmpDocument <;> by_cases hs : s'.selection = st.tmpSelection <;>
          simp [happ, hΔc, commitCount, hd, hs] <;>
          (intro a ha; obtain ⟨j, hj, he⟩ := hmem a ha; simp [he])

/-- The event-dispatch loop starting at position `i` records handler
invocations at strictly increasing positions `≥ i` and commits at most once. -/
theorem runEventLoop_trace (st : EditorState) (name : EventName) (args : List Nat) :
    ∀ (plugins : List Plugin) (i : Nat) (tr : List Ev),
    ∃ r Δ, (Editor.runEventLoop st name args plugins i).run tr = (r, tr ++ Δ)
      ∧ List.Sorted (· < ·) (handlerIdxs Δ)
      ∧ (∀ j ∈ handlerIdxs Δ, i ≤ j)
      ∧ commitCount Δ ≤ 1 := by
  intro plugins
  induction plugins with
  | nil =>
    intro i tr
    exact ⟨.ok st, [], by simp [Editor.runEventLoop, M.run_pure], by simp [handlerIdxs],
      by simp [handlerIdxs], by simp [commitCount]⟩
  | cons p rest ih =>
    intro i tr
    cases hp : p.handlers name with
    | none =>
      obtain ⟨r, Δ, hrun, hsort, hge, hcommit⟩ := ih (i + 1) tr
      refine ⟨r, Δ, by simp [Editor.runEventLoop, hp, hrun], hsort, ?_, hcommit⟩
      intro j hj
      have := hge j hj
      omega
    | some hnd =>
      cases hh : hnd args st.state with
      | error e =>
        refine ⟨.error e, [.handlerRun name i], ?_, ?_, ?_, ?_⟩
        · simp [Editor.runEventLoop, hp, M.run_bind, M.run_emit, hh, M.run_liftE_error]
        · simp [handlerIdxs]
        · simp [handlerIdxs]
        · simp [commitCount]
      | ok os =>
        cases os with
        | none =>
          obtain ⟨r, Δ, hrun, hsort, hge, hcommit⟩ := ih (i + 1) (tr ++ [.handlerRun name i])
          refine ⟨r, .handlerRun name i :: Δ, ?_, ?_, ?_, ?_⟩
          · rw [show (Editor.runEventLoop st name args (p :: rest) i).run tr
                = (Editor.runEventLoop st name args rest (i + 1)).run (tr ++ [.handlerRun name i])
              from by simp [Editor.runEventLoop, hp, M.run_bind, M.run_emit, hh, M.run_liftE_ok],
              hrun]
            simp
          · rw [show handlerIdxs (.handlerRun name i :: Δ) = i :: handlerIdxs Δ from by
              simp [handlerIdxs]]
            rw [List.sorted_cons]
            refine ⟨fun b hb => ?_, hsort⟩
            have := hge b hb
            omega
          · intro j hj
            rw [show handlerIdxs (.handlerRun name i :: Δ) = i :: handlerIdxs Δ from by
              simp [handlerIdxs]] at hj
            rcases List.mem_cons.mp hj with h | h
            · omega
            · have := hge j h
              omega
          · simpa [commitCount] using hcommit
        | some ns =>
          obtain ⟨r, Δ, hrun, hidx, hcommit⟩ := onChange_trace st ns (tr ++ [.handlerRun name i])
          refine ⟨r, .handlerRun name i :: Δ, ?_, ?_, ?_, ?_⟩
          · rw [show (Editor.runEventLoop st name args (p :: rest) i).run tr
                = (Editor.onChange st ns).run (tr ++ [.handlerRun name i])
              from by simp [Editor.runEventLoop, hp, M.run_bind, M.run_emit, hh, M.run_liftE_ok],
              hrun]
            simp
          · rw [show handlerIdxs (.handlerRun name i :: Δ) = i :: handlerIdxs Δ from by
              simp [handlerIdxs], hidx]
            simp
          · intro j hj
            rw [show handlerIdxs (.handlerRun name i :: Δ) = i :: handlerIdxs Δ from by
              simp [handlerIdxs], hidx] at hj
            simp at hj
            omega
          · simpa [commitCount] using hcommit

/-- When no exposed handler returns a snapshot, the dispatch loop leaves the
editor untouched and only records the handler invocations it tried. -/
theorem runEventLoop_none (st : EditorState) (name : EventName) (args : List Nat) :
    ∀ (plugins : List Plugin) (i : Nat) (tr : List Ev),
    specFirstHandlerResult name args st.state plugins = .ok none →
    ∃ Δ, (Editor.runEventLoop st name args plugins i).run tr = (.ok st, tr ++ Δ)
      ∧ ∀ e ∈ Δ, ∃ j, e = .handlerRun name j := by
  intro plugins
  induction plugins with
  | nil =>
    intro i tr _
    exact ⟨[], by simp [Editor.runEventLoop, M.run_pure], by simp⟩
  | cons p rest ih =>
    intro i tr hspec
    cases hp : p.handlers name with
    | none =>
      rw [specFirstHandlerResult, hp] at hspec
      obtain ⟨Δ, hrun, hmem⟩ := ih (i + 1) tr hspec
      exact ⟨Δ, by simp [Editor.runEventLoop, hp, hrun], hmem⟩
    | some hnd =>
      rw [specFirstHandlerResult, hp] at hspec
      cases hh : hnd args st.state with
      | error e => simp [hh] at hspec
      | ok os =>
        cases os with
        | some ns => simp [hh] at hspec
        | none =>
          simp only [hh] at hspec
          obtain ⟨Δ, hrun, hmem⟩ := ih (i + 1) (tr ++ [.handlerRun name i]) hspec
          refine ⟨.handlerRun name i :: Δ, ?_, ?_⟩
          · rw [show (Editor.runEventLoop st name args (p :: rest) i).run tr
                = (Editor.runEventLoop st name args rest (i + 1)).run (tr ++ [.handlerRun name i])
              from by simp [Editor.runEventLoop, hp, M.run_bind, M.run_emit, hh, M.run_liftE_ok],
              hrun]
            simp
          · intro e he
            rcases List.mem_cons.mp he with h | h
            · exact ⟨i, h⟩
            · exact hmem e h

/-- When the first exposed handler returning a snapshot returns `s'`, the
dispatch loop runs exactly as a commit of `s'` after recording the handler
invocations walked so far. -/
theorem runEventLoop_some (st : EditorState) (name : EventName) (args : List Nat) (s' : Snap) :
    ∀ (plugins : List Plugin) (i : Nat) (tr : List Ev),
    specFirstHandlerResult name args st.state plugins = .ok (some s') →
    ∃ Δ, (∀ e ∈ Δ, ∃ j, e = .handlerRun name j)
      ∧ (Editor.runEventLoop st name args plugins i).run tr
          = (Editor.onChange st s').run (tr ++ Δ) := by
  intro plugins
  induction plugins with
  | nil => intro i tr hspec; exact absurd hspec (by simp [specFirstHandlerResult])
  | cons p rest ih =>
    intro i tr hspec
    cases hp : p.handlers name with
    | none =>
      rw [specFirstHandlerResult, hp] at hspec
      obtain ⟨Δ, hmem, hrun⟩ := ih (i + 1) tr hspec
      exact ⟨Δ, hmem, by simp [Editor.runEventLoop, hp, hrun]⟩
    | some hnd =>
      rw [specFirstHandlerResult, hp] at hspec
      cases hh : hnd args st.state with
      | error e => simp [hh] at hspec
      | ok os =>
        cases os with
        | none =>
          simp only [hh] at hspec
          obtain ⟨Δ, hmem, hrun⟩ := ih (i + 1) (tr ++ [.handlerRun name i]) hspec
          refine ⟨.handlerRun name i :: Δ, ?_, ?_⟩
          · intro e he
            rcases List.mem_cons.mp he with h | h
            · exact ⟨i, h⟩
            · exact hmem e h
          · rw [show (Editor.runEventLoop st name args (p :: rest) i).run tr
                = (Editor.runEventLoop st name args rest (i + 1)).run (tr ++ [.handlerRun name i])
              from by simp [Editor.runEventLoop, hp, M.run_bind, M.run_emit, hh, M.run_liftE_ok],
              hrun]
            simp
        | some ns =>
          simp only [hh] at hspec
          have hns : ns = s' := by simpa using hspec
          subst hns
          refine ⟨[.handlerRun name i], by simp, ?_⟩
          simp [Editor.runEventLoop, hp, M.run_bind, M.run_emit, hh, M.run_liftE_ok]

/-- An accepted state keeps the resolved plugin list untouched. -/
theorem acceptExternalState_ok_plugins (st : EditorState) (s : Snap) (tr tr' : List Ev)
    (st' : EditorState) (h : (Editor.acceptExternalState st s).run tr = (.ok st', tr')) :
    st'.plugins = st.plugins := by
  rw [acceptExternalState_run] at h
  cases hb : (Editor.onBeforeChange st s).run tr with
  | mk r trb =>
    rw [hb] at h
    cases r with
    | ok s' =>
      simp only [Prod.mk.injEq, Except.ok.injEq] at h
      obtain ⟨hst, _⟩ := h
      rw [← hst]
    | error e => simp at h

/-! ### The claims -/

/-- C1: dispatching an event yields the result of the first plugin in the
plugin list that exposes a handler for it and returns a snapshot — that
snapshot is committed through `onChange` after only handler invocations; when
no exposed handler returns a result, the dispatch leaves the editor state
untouched and its trace records only handler invocations: no callback fires,
no cache write and no commit occur. -/
theorem c1_dispatch_first_match_wins (st : EditorState) (name : EventName) (args : List Nat) :
    (specFirstHandlerResult name args st.state st.plugins = .ok none →
      ∃ Δ, (Editor.onEvent st name args).run [] = (.ok st, Δ)
        ∧ ∀ e ∈ Δ, ∃ j, e = Ev.handlerRun name j)
    ∧ (∀ s', specFirstHandlerResult name args st.state st.plugins = .ok (some s') →
      ∃ Δ, (∀ e ∈ Δ, ∃ j, e = Ev.handlerRun name j)
        ∧ (Editor.onEvent st name args).run [] = (Editor.onChange st s').run Δ) := by
  constructor
  · intro h
    obtain ⟨Δ, hrun, hmem⟩ := runEventLoop_none st name args st.plugins 0 [] h
    exact ⟨Δ, by simpa [Editor.onEvent] using hrun, hmem⟩
  · intro s' h
    obtain ⟨Δ, hmem, hrun⟩ := runEventLoop_some st name args s' st.plugins 0 [] h
    exact ⟨Δ, hmem, by simpa [Editor.onEvent] using hrun⟩

/-- Witness for C1: in `exStBase` the first key-down handler declines and the
second returns `exS2`, so dispatch commits `exS2`. -/
theorem c1_witness :
    ∃ Δ, (∀ e ∈ Δ, ∃ j, e = Ev.handlerRun .onKeyDown j)
      ∧ (Editor.onEvent exStBase .onKeyDown []).run [] = (Editor.onChange exStBase exS2).run Δ :=
  (c1_dispatch_first_match_wins exStBase .onKeyDown []).2 exS2 rfl

/-- C2: a hook that throws partway through a before-change chain (during the
state-acceptance path) or an after-change chain (during a commit) propagates
its failure synchronously to the caller, and the run's trace holds only
hook-invocation records: no cache write, no authoritative-state assignment,
and none of the change / document-change / selection-change callbacks. -/
theorem c2_failed_chain_is_atomic (st : EditorState) (s : Snap) (e : Err) :
    (∀ trb, (Editor.onBeforeChange st s).run [] = (.error e, trb) →
      (Editor.acceptExternalState st s).run [] = (.error e, trb)
        ∧ ∀ ev ∈ trb, ∃ j, ev = Ev.beforeHook j)
    ∧ (∀ trc, s ≠ st.state →
      (Editor.runChangeChain st.plugins 0 s).run [] = (.error e, trc) →
      (Editor.onChange st s).run [] = (.error e, trc)
        ∧ ∀ ev ∈ trc, ∃ j, ev = Ev.changeHook j) := by
  constructor
  · intro trb hb
    have hprop : (Editor.acceptExternalState st s).run [] = (.error e, trb) := by
      rw [acceptExternalState_run, hb]
    refine ⟨hprop, ?_⟩
    by_cases hs : s = st.state
    · simp [Editor.onBeforeChange, hs, M.run_pure] at hb
    · simp only [Editor.onBeforeChange, if_neg hs] at hb
      obtain ⟨r, Δ, hrun, hmem⟩ := runBeforeChain_trace st.plugins 0 s []
      rw [hb] at hrun
      simp only [List.nil_append, Prod.mk.injEq] at hrun
      obtain ⟨hr, ht⟩ := hrun
      intro ev hev
      obtain ⟨j, _, hev'⟩ := hmem ev (ht ▸ hev)
      exact ⟨j, hev'⟩
  · intro trc hne hc
    have hprop : (Editor.onChange st s).run [] = (.error e, trc) := by
      rw [onChange_run st s [] hne, hc]
    refine ⟨hprop, ?_⟩
    obtain ⟨r, Δ, hrun, hmem⟩ := runChangeChain_trace st.plugins 0 s []
    rw [hc] at hrun
    simp only [List.nil_append, Prod.mk.injEq] at hrun
    obtain ⟨hr, ht⟩ := hrun
    intro ev hev
    obtain ⟨j, _, hev'⟩ := hmem ev (ht ▸ hev)
    exact ⟨j, hev'⟩

/-- Witness for C2: `exStThrow`'s only plugin throws `7` from both hooks; the
acceptance path and the commit path both surface the error after recording
only the hook invocation. -/
theorem c2_witness :
    (Editor.acceptExternalState exStThrow exS2).run [] = (.error 7, [.beforeHook 0])
    ∧ (Editor.onChange exStThrow exS2).run [] = (.error 7, [.changeHook 0]) :=
  ⟨((c2_failed_chain_is_atomic exStThrow exS2 7).1 [.beforeHook 0] rfl).1,
   ((c2_failed_chain_is_atomic exStThrow exS2 7).2 [.changeHook 0] (by decide) rfl).1⟩

/-- C3: committing a snapshot whose document instance differs from the cached
document fires the document-change callback with `(s2.document, s2)`, and
likewise a new selection instance fires the selection-change callback — the
conditions compare instance identity only, never content, so content-equal
new instances still notify.  (Stated for editors whose plugins install no
after-change hook, so the chain passes `s2` through unchanged.) -/
theorem c3_identity_diffing (st : EditorState) (s2 : Snap)
    (hne : s2 ≠ st.state) (hno : ∀ p ∈ st.plugins, p.onChange = none) :
    (Editor.onChange st s2).run [] =
      (.ok { st with tmpDocument := s2.document, tmpSelection := s2.selection },
       [Ev.cbChange s2]
         ++ (if s2.document = st.tmpDocument then [] else [.cbDocumentChange s2.document s2])
         ++ (if s2.selection = st.tmpSelection then [] else [.cbSelectionChange s2.selection s2])
         ++ [.cacheWrite s2.document s2.selection]) := by
  rw [onChange_run st s2 [] hne, runChangeChain_id st.plugins hno 0 s2 []]
  simp

/-- Witness for C3: `exS1`'s document and selection are content-equal to the
cached ones but distinct instances; both notifications fire anyway. -/
theorem c3_witness :
    exS1.document.content = exStPlain.tmpDocument.content
    ∧ exS1.document ≠ exStPlain.tmpDocument
    ∧ exS1.selection.content = exStPlain.tmpSelection.content
    ∧ exS1.selection ≠ exStPlain.tmpSelection
    ∧ (Editor.onChange exStPlain exS1).run [] =
        (.ok { exStPlain with tmpDocument := exS1.document, tmpSelection := exS1.selection },
         [Ev.cbChange exS1, .cbDocumentChange exS1.document exS1,
          .cbSelectionChange exS1.selection exS1,
          .cacheWrite exS1.document exS1.selection]) := by
  refine ⟨by decide, by decide, by decide, by decide, ?_⟩
  have h := c3_identity_diffing exStPlain exS1 (by decide) (by simp [exStPlain])
  simpa [show ¬ (exS1.document = exStPlain.tmpDocument) from by decide,
    show ¬ (exS1.selection = exStPlain.tmpSelection) from by decide] using h

/-- C4: the resolved plugin list is exactly `[override, ...user plugins in the
given order, core]`; the override plugin carries the configuration's schema
fragment, before-change hook and event handlers while excluding the primary
change callback (its after-change slot is empty whatever `props.onChangeCb`
is); and a props update whose plugin-list reference is unchanged — in
particular one changing only the schema configuration — leaves the resolved
plugin list's order and contents untouched. -/
theorem c4_plugin_resolution (core : Props → Plugin) (props : Props) :
    (Editor.resolvePlugins core props).head? = some (Editor.editorPluginOf props)
    ∧ (Editor.resolvePlugins core props).getLast? = some (core props)
    ∧ ((Editor.resolvePlugins core props).drop 1).dropLast = props.plugins
    ∧ (Editor.editorPluginOf props).onChange = none
    ∧ (Editor.editorPluginOf props).schema = props.schema
    ∧ (Editor.editorPluginOf props).onBeforeChange = props.onBeforeChange
    ∧ (Editor.editorPluginOf props).handlers = props.handlers
    ∧ ∀ (oldProps : Props) (st st' : EditorState) (tr' : List Ev),
        props.pluginsId = oldProps.pluginsId →
        (Editor.componentWillReceiveProps core oldProps st props).run [] = (.ok st', tr') →
        st'.plugins = st.plugins := by
  refine ⟨by simp [Editor.resolvePlugins], ?_, ?_, rfl, rfl, rfl, rfl, ?_⟩
  · rw [Editor.resolvePlugins, show
      Editor.editorPluginOf props :: (props.plugins ++ [core props])
        = (Editor.editorPluginOf props :: props.plugins) ++ [core props] from by simp,
      List.getLast?_concat]
  · simp [Editor.resolvePlugins, List.dropLast_concat]
  · intro oldProps st st' tr' hid hrun
    simp only [Editor.componentWillReceiveProps, if_neg (show ¬ props.pluginsId ≠ oldProps.pluginsId
      from by simp [hid])] at hrun
    by_cases hsc : props.schemaId ≠ oldProps.schemaId
    · rw [if_pos hsc] at hrun
      simpa using acceptExternalState_ok_plugins _ _ _ _ _ hrun
    · rw [if_neg hsc] at hrun
      exact acceptExternalState_ok_plugins _ _ _ _ _ hrun

/-- Witness for C4: updating `exStC6` from `exPropsOld` to `exPropsNew`
(plugin-list reference unchanged, schema reference changed) keeps the plugin
list. -/
theorem c4_witness : exStC6After.plugins = exStC6.plugins :=
  (c4_plugin_resolution exCoreFactory exPropsNew).2.2.2.2.2.2.2 exPropsOld exStC6 exStC6After
    ((Editor.componentWillReceiveProps exCoreFactory exPropsOld exStC6 exPropsNew).run []).2
    rfl rfl

/-- C5: the composed schema's rule sequence is exactly the ordered
concatenation, in plugin-list order, of each plugin's expanded rule fragment;
a plugin declaring no fragment contributes `[]`, and nothing is deduplicated,
removed or overridden. -/
theorem c5_schema_concatenation (plugins : List Plugin) :
    (Editor.resolveSchema plugins).rules = (plugins.map pluginExpandedRules).flatten := by
  simp [Editor.resolveSchema, resolveSchema_foldl]

/-- C6 (code bug, evaluated at the failing input): the plugin-list reference
is unchanged and a new schema object with rules `[2]` is supplied, yet
`componentWillReceiveProps` rebuilds the schema from the stale resolved plugin
list — whose override plugin still carries the old fragment — so the rebuilt
schema still holds `[1]` and the new fragment's rule never appears. -/
theorem c6_schema_change_ignored :
    exPropsNew.pluginsId = exPropsOld.pluginsId
    ∧ exPropsNew.schemaId ≠ exPropsOld.schemaId
    ∧ exPropsNew.schema = some exFragNew
    ∧ exFragNew.rules = [2]
    ∧ exStC6After.schema.rules = [1]
    ∧ ¬ (2 ∈ exStC6After.schema.rules) := by decide

/-- C7 (amended): when the supplied snapshot is identity-equal to the current
authoritative snapshot, the acceptance path skips every before-change hook and
returns/installs the snapshot unchanged, but it still unconditionally
refreshes the StateCache to that snapshot's document and selection — the cache
is untouched only when it already held exactly those references. -/
theorem c7_noop_path (st : EditorState) (s : Snap) (h : s = st.state) :
    (Editor.acceptExternalState st s).run [] =
      (.ok { st with state := s, tmpDocument := s.document, tmpSelection := s.selection },
       [.cacheWrite s.document s.selection, .setAuthState s]) := by
  rw [acceptExternalState_run]
  simp [Editor.onBeforeChange, h, M.run_pure]

/-- Witness for C7's amended statement, at an in-sync editor. -/
theorem c7_witness :
    exS0 = exStPlain.state
    ∧ (Editor.acceptExternalState exStPlain exS0).run [] =
        (.ok { exStPlain with
                state := exS0
                tmpDocument := exS0.document
                tmpSelection := exS0.selection },
         [.cacheWrite exS0.document exS0.selection, .setAuthState exS0]) :=
  ⟨by decide, c7_noop_path exStPlain exS0 (by decide)⟩

/-- C7 (counterexample to the claim as stated): after committing `exS2` from
`exStPlain` the cache holds `exS2`'s document `exD2` while the authoritative
snapshot is still `exS0` (the commit path does not assign `this.state.state`).
Accepting `exS0` — identity-equal to the authoritative snapshot — then rewrites
the cached document back to `exD0`: the cache is not left untouched. -/
theorem c7_counterexample :
    exStMid.state = exS0
    ∧ exStMid.tmpDocument = exD2
    ∧ (getOk ((Editor.acceptExternalState exStMid exS0).run []).1 exStPlain).tmpDocument = exD0
    ∧ exD0 ≠ exD2 := by decide

/-- C8: committing a snapshot identity-equal to the current authoritative
snapshot is a complete no-op: no after-change hook runs, none of the change /
document-change / selection-change callbacks fires, and the cache is not
written. -/
theorem c8_commit_noop (st : EditorState) (s : Snap) (h : s = st.state) :
    (Editor.onChange st s).run [] = (.ok st, []) := by
  simp [Editor.onChange, h, M.run_pure]

/-- Witness for C8. -/
theorem c8_witness :
    exS0 = exStPlain.state ∧ (Editor.onChange exStPlain exS0).run [] = (.ok exStPlain, []) :=
  ⟨by decide, c8_commit_noop exStPlain exS0 (by decide)⟩

/-- C9 (counterexample to the claim as stated): in `exStBase` a single
key-down dispatch executes two plugin handlers — the first declines by
returning no result, so the loop continues into the second. -/
theorem c9_counterexample :
    handlerRunCount ((Editor.onEvent exStBase .onKeyDown []).run []).2 = 2 := by decide

/-- C9 (amended): dispatch is strictly sequential — the handlers executed for
one dispatch are at strictly increasing plugin positions, so no handler runs
twice — and at most one handler's result is committed (at most one external
change callback fires per dispatch). -/
theorem c9_sequential_dispatch (st : EditorState) (name : EventName) (args : List Nat) :
    List.Sorted (· < ·) (handlerIdxs ((Editor.onEvent st name args).run []).2)
    ∧ commitCount ((Editor.onEvent st name args).run []).2 ≤ 1 := by
  obtain ⟨r, Δ, hrun, hsort, _, hcommit⟩ := runEventLoop_trace st name args st.plugins 0 []
  rw [show (Editor.onEvent st name args).run [] = (r, Δ) from by
    simpa [Editor.onEvent] using hrun]
  exact ⟨hsort, hcommit⟩

/-- C10: the override plugin carries the configuration's schema override
fragment, so its expanded rules come first in the composed schema, before the
contributions of every user plugin and of the core plugin. -/
theorem c10_override_schema_first (core : Props → Plugin) (props : Props)
    (f : SchemaFragment) (hf : props.schema = some f) :
    (Editor.resolveSchema (Editor.resolvePlugins core props)).rules
      = (Schema.create f).rules
        ++ ((props.plugins ++ [core props]).map pluginExpandedRules).flatten := by
  cases hc : (core props).schema with
  | none =>
    simp [Editor.resolveSchema, resolveSchema_foldl, Editor.resolvePlugins,
      Editor.editorPluginOf, pluginExpandedRules, hf, hc]
  | some g =>
    simp [Editor.resolveSchema, resolveSchema_foldl, Editor.resolvePlugins,
      Editor.editorPluginOf, pluginExpandedRules, hf, hc, List.append_assoc]

/-- Witness for C10: with a core plugin that also contributes rules, the
override fragment's rules still come first. -/
theorem c10_witness :
    exPropsOld.schema = some exFragOld
    ∧ (Editor.resolveSchema (Editor.resolvePlugins exCoreWithSchema exPropsOld)).rules
        = (Schema.create exFragOld).rules
          ++ ((exPropsOld.plugins ++ [exCoreWithSchema exPropsOld]).map
              pluginExpandedRules).flatten :=
  ⟨rfl, c10_override_schema_first exCoreWithSchema exPropsOld exFragOld rfl⟩
